import Mathlib

/-!
# TTRPGFinder: graph construction and selection highlighting

A shallow embedding of `src/main.js`: `buildGraph` (records to nodes, links,
neighbour index and system lookup), the link resolution performed by the
force layout, `renderDetails`, `highlightNode` and the click handlers.

JavaScript `Map` and `Set` keep insertion order, so they are embedded as
association lists and duplicate-free lists.  A `TypeError` raised by the
source is an explicit failure value.
-/

namespace TTRPGFinder

/-! ## Data model -/

/-- The `categories` array of the source, in its fixed order. -/
def categories : List String :=
  [ "core_resolution",
    "narrative_authority",
    "game_structure",
    "player_focus",
    "mechanical_philosophy",
    "character_mechanics",
    "dice_philosophy",
    "temporal_scale",
    "resolution_focus",
    "genre_scope" ]

/-- The value of a property read on the `categoryTitles` object. -/
inductive TitleValue where
  | text (title : String)
  | inherited (key : String)
  | undefined
deriving DecidableEq, Repr

/-- The property names every plain object inherits from `Object.prototype`. -/
def objectPrototypeKeys : List String :=
  [ "constructor",
    "hasOwnProperty",
    "isPrototypeOf",
    "propertyIsEnumerable",
    "toLocaleString",
    "toString",
    "valueOf",
    "__proto__",
    "__defineGetter__",
    "__defineSetter__",
    "__lookupGetter__",
    "__lookupSetter__" ]

/-- The read `categoryTitles[category]` on the object literal of the source: an
own property gives its title, a name inherited from `Object.prototype` gives
that inherited function or object, any other key gives `undefined`. -/
def categoryTitles (category : String) : TitleValue :=
  if category = "core_resolution" then TitleValue.text "Core Resolution"
  else if category = "narrative_authority" then TitleValue.text "Narrative Authority"
  else if category = "game_structure" then TitleValue.text "Game Structure"
  else if category = "player_focus" then TitleValue.text "Player Focus"
  else if category = "mechanical_philosophy" then TitleValue.text "Mechanical Philosophy"
  else if category = "character_mechanics" then TitleValue.text "Character Mechanics"
  else if category = "dice_philosophy" then TitleValue.text "Dice Philosophy"
  else if category = "temporal_scale" then TitleValue.text "Temporal Scale"
  else if category = "resolution_focus" then TitleValue.text "Resolution Focus"
  else if category = "genre_scope" then TitleValue.text "Genre Scope"
  else if category ∈ objectPrototypeKeys then TitleValue.inherited category
  else TitleValue.undefined

/-- The read `categoryTitles[node.category]`: a missing `category` is the
value `undefined`, which as a property key is the string `"undefined"`. -/
def nodeCategoryTitle (category : Option String) : TitleValue :=
  categoryTitles (category.getD "undefined")

/-- One input record: `system` is its name, `lists` holds the properties of the
object that carry tag lists (a key that is absent reads as `undefined`). -/
structure SystemEntry where
  system : String
  lists : List (String × List String)
deriving DecidableEq, Repr

/-- The expression `systemEntry[category]`: `none` is `undefined`. -/
def SystemEntry.prop (e : SystemEntry) (category : String) : Option (List String) :=
  e.lists.lookup category

/-- The expression `systemEntry[category] || []`. -/
def SystemEntry.values (e : SystemEntry) (category : String) : List String :=
  (e.prop category).getD []

/-- The `type` field of a node object. -/
inductive NodeType where
  | system
  | tag
deriving DecidableEq, Repr

/-- A node object `{id, label, category, type}`; system nodes have no
`category` property. -/
structure Node where
  id : String
  label : String
  category : Option String
  type : NodeType
deriving DecidableEq, Repr

/-- A link object `{source, target, category}` as pushed by `buildGraph`. -/
structure Link where
  source : String
  target : String
  category : String
deriving DecidableEq, Repr

/-! ## Insertion-ordered maps and sets -/

/-- `Map.prototype.get`; `none` is `undefined`. -/
def mapGet {β : Type} (m : List (String × β)) (k : String) : Option β :=
  m.lookup k

/-- `Map.prototype.has`. -/
def mapHas {β : Type} (m : List (String × β)) (k : String) : Bool :=
  (mapGet m k).isSome

/-- `Map.prototype.set`: an existing key keeps its position and takes the new
value, a new key goes to the end. -/
def mapSet {β : Type} : List (String × β) → String → β → List (String × β)
  | [], k, v => [(k, v)]
  | (k', v') :: rest, k, v =>
    if k = k' then (k', v) :: rest else (k', v') :: mapSet rest k v

/-- `Set.prototype.add`. -/
def setAdd (s : List String) (b : String) : List String :=
  if b ∈ s then s else s ++ [b]

/-- `Set.prototype.has`. -/
def setHas (s : List String) (b : String) : Bool :=
  decide (b ∈ s)

/-! ## buildGraph -/

/-- The local variables of `buildGraph`. -/
structure GraphState where
  nodes : List Node
  links : List Link
  systemNodes : List (String × SystemEntry)
  tagNodes : List (String × Node)
  neighborMap : List (String × List String)
deriving Repr

/-- The state at the start of `buildGraph`. -/
def GraphState.empty : GraphState :=
  { nodes := [], links := [], systemNodes := [], tagNodes := [], neighborMap := [] }

/-- The inner function `registerNeighbor(a, b)`. -/
def registerNeighbor (neighborMap : List (String × List String)) (a b : String) :
    List (String × List String) :=
  let m := if !mapHas neighborMap a then mapSet neighborMap a [] else neighborMap
  mapSet m a (setAdd ((mapGet m a).getD []) b)

/-- The template literal that builds a tag id. -/
def tagIdOf (category value : String) : String :=
  category ++ ":" ++ value

/-- The body of `values.forEach((value) => ...)`. -/
def processValue (systemId category : String) (st : GraphState) (value : String) :
    GraphState :=
  let tagId := tagIdOf category value
  let st1 : GraphState :=
    if !mapHas st.tagNodes tagId then
      let tagNode : Node :=
        { id := tagId, label := value, category := some category, type := NodeType.tag }
      { st with tagNodes := mapSet st.tagNodes tagId tagNode, nodes := st.nodes ++ [tagNode] }
    else st
  let st2 : GraphState :=
    { st1 with links := st1.links ++ [{ source := systemId, target := tagId, category := category }] }
  let st3 : GraphState :=
    { st2 with neighborMap := registerNeighbor st2.neighborMap systemId tagId }
  { st3 with neighborMap := registerNeighbor st3.neighborMap tagId systemId }

/-- The body of `categories.forEach((category) => ...)`. -/
def processCategory (systemEntry : SystemEntry) (systemId : String) (st : GraphState)
    (category : String) : GraphState :=
  (systemEntry.values category).foldl (processValue systemId category) st

/-- The body of `data.forEach((systemEntry) => ...)`. -/
def processEntry (st : GraphState) (systemEntry : SystemEntry) : GraphState :=
  let systemNode : Node :=
    { id := systemEntry.system, label := systemEntry.system, category := none,
      type := NodeType.system }
  let st1 : GraphState :=
    { st with nodes := st.nodes ++ [systemNode],
              systemNodes := mapSet st.systemNodes systemNode.id systemEntry }
  categories.foldl (processCategory systemEntry systemNode.id) st1

/-- The function `buildGraph(data)`; the returned object is the final state
(its `tagNodes` field is local to the source function). -/
def buildGraph (data : List SystemEntry) : GraphState :=
  data.foldl processEntry GraphState.empty

/-! ## Link resolution by the force layout

`init` hands `links` to `d3.forceLink(links).id((d) => d.id)`.  When that force
is initialised, d3-force replaces every `source` and `target` that is not an
object by the node object found under that id in
`new Map(nodes.map((d) => [d.id, d]))`, and raises an error when there is none.
The source relies on it (`d.source.type`, `d.source.x`, `link.source.id`). -/

/-- A link whose endpoints have been replaced by node objects. -/
structure ResolvedLink where
  source : Node
  target : Node
  category : String
deriving DecidableEq, Repr

/-- The lookup table `new Map(nodes.map((d) => [d.id, d]))`. -/
def nodeById (nodes : List Node) : List (String × Node) :=
  nodes.foldl (fun m d => mapSet m d.id d) []

/-- Resolution of one link; `none` is the error for a missing node. -/
def resolveLink (byId : List (String × Node)) (l : Link) : Option ResolvedLink :=
  match mapGet byId l.source, mapGet byId l.target with
  | some s, some t => some { source := s, target := t, category := l.category }
  | _, _ => none

/-- Resolution of all links, in order. -/
def resolveLinks (byId : List (String × Node)) : List Link → Option (List ResolvedLink)
  | [] => some []
  | l :: rest =>
    match resolveLink byId l, resolveLinks byId rest with
    | some r, some rs => some (r :: rs)
    | _, _ => none

/-- The initialisation of the link force on the output of `buildGraph`. -/
def forceLinkInit (nodes : List Node) (links : List Link) : Option (List ResolvedLink) :=
  resolveLinks (nodeById nodes) links

/-! ## Sorting of system names -/

/-- The UTF-16 code units of one character. -/
def utf16 (c : Char) : List Nat :=
  if c.toNat < 0x10000 then [c.toNat]
  else [0xD800 + (c.toNat - 0x10000) / 0x400, 0xDC00 + (c.toNat - 0x10000) % 0x400]

/-- The code units of a string, which JavaScript compares strings by. -/
def codeUnits (s : String) : List Nat :=
  s.data.flatMap utf16

/-- Lexicographic comparison of code-unit sequences. -/
def unitsLt : List Nat → List Nat → Bool
  | [], [] => false
  | [], _ :: _ => true
  | _ :: _, [] => false
  | a :: as, b :: bs => if a < b then true else if b < a then false else unitsLt as bs

/-- The JavaScript expression `a < b` on strings. -/
def jsLt (a b : String) : Bool :=
  unitsLt (codeUnits a) (codeUnits b)

/-- The comparator `d3.ascending(a, b)` on strings:
`a < b ? -1 : a > b ? 1 : a >= b ? 0 : NaN`. -/
def ascending (a b : String) : Int :=
  if jsLt a b then -1 else if jsLt b a then 1 else 0

/-- The order a comparator sort arranges by: `a` may stand before `b`. -/
def ascendingLe (a b : String) : Prop :=
  ascending a b ≤ 0

instance ascendingLe.decidable : DecidableRel ascendingLe :=
  fun a b => inferInstanceAs (Decidable (ascending a b ≤ 0))

/-- The call `.sort((a, b) => d3.ascending(a, b))`: a stable comparison sort. -/
def sortAscending (names : List String) : List String :=
  names.insertionSort ascendingLe

/-! ## renderDetails -/

/-- What `renderDetails` writes into the details panel, by the holes of its
three templates. -/
inductive Details where
  | placeholder
  | system (title : String) (count : Nat)
      (lists : List (Option (TitleValue × List String)))
  | tag (label : String) (categoryTitle : TitleValue) (count : Nat)
      (systems : List String)
deriving DecidableEq, Repr

/-- The expression `Array.from(neighbors).map((id) => dataById.get(id).system)`;
`none` is the `TypeError` of reading `.system` of `undefined`. -/
def relatedNames (dataById : List (String × SystemEntry)) : List String → Option (List String)
  | [] => some []
  | id :: rest =>
    match mapGet dataById id, relatedNames dataById rest with
    | some system, some names => some (system.system :: names)
    | _, _ => none

/-- One entry of `categories.map((category) => ...)` in the system branch:
`none` is the empty string returned for a missing or empty list. -/
def categorySection (system : SystemEntry) (category : String) :
    Option (TitleValue × List String) :=
  match system.prop category with
  | none => none
  | some values => if values.length = 0 then none else some (categoryTitles category, values)

/-- The function `renderDetails(node, neighbors, dataById)`; `none` is a
`TypeError` raised before the panel is written. -/
def renderDetails (node : Option Node) (neighbors : List String)
    (dataById : List (String × SystemEntry)) : Option Details :=
  match node with
  | none => some Details.placeholder
  | some node =>
    if node.type = NodeType.system then
      match mapGet dataById node.id with
      | none => none
      | some system =>
        some (Details.system system.system neighbors.length
          (categories.map (categorySection system)))
    else
      match relatedNames dataById neighbors with
      | none => none
      | some names =>
        let relatedSystems := sortAscending names
        some (Details.tag node.label (nodeCategoryTitle node.category)
          relatedSystems.length relatedSystems)

/-! ## highlightNode and the click handlers -/

/-- The two classes toggled on a node group or a link line. -/
structure Classes where
  dimmed : Bool
  highlight : Bool
deriving DecidableEq, Repr

/-- The part of the page `highlightNode` writes: the classes of each element of
`nodesSelection`, `labelsSelection` and `linksSelection` (in data order) and
the details panel. -/
structure View where
  nodes : List Classes
  labels : List Bool
  links : List Classes
  details : Details
deriving DecidableEq, Repr

/-- The variables `highlightNode` closes over. -/
structure App where
  nodes : List Node
  links : List ResolvedLink
  neighborMap : List (String × List String)
  systemNodes : List (String × SystemEntry)
deriving Repr

/-- The expression `link.source.id || link.source` on a resolved endpoint: the
id when it is truthy (non-empty), else the node object itself. -/
def idOrSelf (endpoint : Node) : String ⊕ Node :=
  if endpoint.id ≠ "" then Sum.inl endpoint.id else Sum.inr endpoint

/-- Strict equality `v === id` of such a value with a string. -/
def strictEq (v : String ⊕ Node) (id : String) : Bool :=
  match v with
  | Sum.inl s => decide (s = id)
  | Sum.inr _ => false

/-- The call `neighbors.has(v)` on a set of strings. -/
def neighborsHas (neighbors : List String) (v : String ⊕ Node) : Bool :=
  match v with
  | Sum.inl s => setHas neighbors s
  | Sum.inr _ => false

/-- The predicate both link callbacks of `highlightNode` compute. -/
def linkTouches (nodeDatum : Node) (neighbors : List String) (link : ResolvedLink) : Bool :=
  let sourceId := idOrSelf link.source
  let targetId := idOrSelf link.target
  (strictEq sourceId nodeDatum.id && neighborsHas neighbors targetId) ||
    (strictEq targetId nodeDatum.id && neighborsHas neighbors sourceId)

/-- The function `highlightNode(nodeDatum)`.  `Except.error` carries the page
as it stands when `renderDetails` raises: the classes are already rewritten,
the details panel is the old one. -/
def highlightNode (app : App) (nodeDatum : Option Node) (view : View) : Except View View :=
  match nodeDatum with
  | none =>
    match renderDetails none [] [] with
    | some details =>
      Except.ok
        { nodes := app.nodes.map (fun _ => { dimmed := false, highlight := false }),
          labels := app.nodes.map (fun _ => false),
          links := app.links.map (fun _ => { dimmed := false, highlight := false }),
          details := details }
    | none =>
      Except.error
        { nodes := app.nodes.map (fun _ => { dimmed := false, highlight := false }),
          labels := app.nodes.map (fun _ => false),
          links := app.links.map (fun _ => { dimmed := false, highlight := false }),
          details := view.details }
  | some nodeDatum =>
    let neighbors := (mapGet app.neighborMap nodeDatum.id).getD []
    let relatedIds := setAdd neighbors nodeDatum.id
    let nodes : List Classes := app.nodes.map (fun d =>
      { dimmed := !setHas relatedIds d.id, highlight := decide (d.id = nodeDatum.id) })
    let labels : List Bool := app.nodes.map (fun d => !setHas relatedIds d.id)
    let links : List Classes := app.links.map (fun link =>
      { dimmed := !linkTouches nodeDatum neighbors link,
        highlight := linkTouches nodeDatum neighbors link })
    let rendered : Option Details :=
      if nodeDatum.type = NodeType.system then
        renderDetails (some nodeDatum) neighbors app.systemNodes
      else
        let systems := neighbors
        renderDetails (some nodeDatum) systems app.systemNodes
    match rendered with
    | some details =>
      Except.ok { nodes := nodes, labels := labels, links := links, details := details }
    | none =>
      Except.error { nodes := nodes, labels := labels, links := links, details := view.details }

/-- The page after a call of `highlightNode`, raised or not. -/
def pageAfter : Except View View → View
  | Except.ok v => v
  | Except.error v => v

/-- The variable `activeNode` together with the page. -/
structure UIState where
  activeNode : Option Node
  view : View
deriving DecidableEq, Repr

/-- The handler `nodesSelection.on("click", (event, d) => ...)`. -/
def clickNode (app : App) (st : UIState) (d : Node) : UIState :=
  if st.activeNode.any (fun a => decide (a.id = d.id)) then
    { activeNode := none, view := pageAfter (highlightNode app none st.view) }
  else
    { activeNode := some d, view := pageAfter (highlightNode app (some d) st.view) }

/-- The handler `svg.on("click", () => ...)`, which is `select(none)`. -/
def clickBackground (app : App) (st : UIState) : UIState :=
  { activeNode := none, view := pageAfter (highlightNode app none st.view) }

/-- The closure built by `init` from the loaded data; `none` when the link
force cannot resolve an endpoint. -/
def initApp (data : List SystemEntry) : Option App :=
  let g := buildGraph data
  match forceLinkInit g.nodes g.links with
  | some links =>
    some { nodes := g.nodes, links := links, neighborMap := g.neighborMap,
           systemNodes := g.systemNodes }
  | none => none

/-- The page right after `init`: no class set, `renderDetails(null)` shown. -/
def initView (app : App) : View :=
  { nodes := app.nodes.map (fun _ => { dimmed := false, highlight := false }),
    labels := app.nodes.map (fun _ => false),
    links := app.links.map (fun _ => { dimmed := false, highlight := false }),
    details := Details.placeholder }

/-! ## The input as a list of (system, category, value) triples -/

/-- The values `processEntry` visits for one record, in visiting order. -/
def entryTriples (r : SystemEntry) : List (String × String × String) :=
  categories.flatMap (fun c => (r.values c).map (fun v => (r.system, c, v)))

/-- The values `buildGraph` visits, in visiting order. -/
def triples (data : List SystemEntry) : List (String × String × String) :=
  data.flatMap entryTriples

/-- One run of the innermost callback, on a triple. -/
def tripleStep (st : GraphState) (t : String × String × String) : GraphState :=
  processValue t.1 t.2.1 st t.2.2

/-- The link pushed for a triple. -/
def linkOf (t : String × String × String) : Link :=
  { source := t.1, target := tagIdOf t.2.1 t.2.2, category := t.2.1 }

/-- The tag node created for a (category, value) pair. -/
def tagNodeOf (category value : String) : Node :=
  { id := tagIdOf category value, label := value, category := some category,
    type := NodeType.tag }

/-- The state `processEntry` starts its category loop from. -/
def withSystemNode (st : GraphState) (r : SystemEntry) : GraphState :=
  { st with
    nodes := st.nodes ++ [{ id := r.system, label := r.system, category := none,
                            type := NodeType.system }],
    systemNodes := mapSet st.systemNodes r.system r }

/-- The neighbour set read by `neighborMap.get(a) || new Set()`. -/
def neighborsOf (m : List (String × List String)) (a : String) : List String :=
  (mapGet m a).getD []

/-- The tag nodes among `nodes`. -/
def tagNodesIn (nodes : List Node) : List Node :=
  nodes.filter (fun n => decide (n.type = NodeType.tag))

/-! ## Predicates and inputs used in the statements -/

/-- The two registrations a triple makes, as a relation on ids. -/
def joins (t : String × String × String) (a b : String) : Prop :=
  (a = t.1 ∧ b = tagIdOf t.2.1 t.2.2) ∨ (a = tagIdOf t.2.1 t.2.2 ∧ b = t.1)

/-- The invariant tying `tagNodes` to the tag nodes pushed so far. -/
structure TagInv (st : GraphState) : Prop where
  has_iff : ∀ id, mapHas st.tagNodes id = true ↔ ∃ n ∈ tagNodesIn st.nodes, n.id = id
  nodup : ((tagNodesIn st.nodes).map (fun n => n.id)).Nodup
  shape : ∀ n ∈ tagNodesIn st.nodes, ∃ c ∈ categories, ∃ v, n = tagNodeOf c v

/-- The record `{system: "Fate", core_resolution: ["d6 pool"], genre_scope: ["generic"]}`. -/
def fate : SystemEntry :=
  { system := "Fate",
    lists := [("core_resolution", ["d6 pool"]), ("genre_scope", ["generic"])] }

/-- The record `{system: "Blades", core_resolution: ["d6 pool"]}`. -/
def blades : SystemEntry :=
  { system := "Blades", lists := [("core_resolution", ["d6 pool"])] }

/-- The system node `buildGraph` creates for the record `fate`. -/
def fateNode : Node :=
  { id := "Fate", label := "Fate", category := none, type := NodeType.system }

/-- A record whose `core_resolution` list repeats a value. -/
def repeated : SystemEntry :=
  { system := "A", lists := [("core_resolution", ["x", "x"])] }

/-- The `(source, target)` pair of a link. -/
def Link.endpoints (l : Link) : String × String :=
  (l.source, l.target)

/-- Every entry of the system lookup is stored under its own name. -/
def SystemsKeyed (m : List (String × SystemEntry)) : Prop :=
  ∀ id e, mapGet m id = some e → e.system = id

/-- Every neighbour set of the index is duplicate-free. -/
def SetsNodup (m : List (String × List String)) : Prop :=
  ∀ a, (neighborsOf m a).Nodup

/-- Every node of the lookup table is stored under its own id. -/
def NodesKeyed (m : List (String × Node)) : Prop :=
  ∀ id n, mapGet m id = some n → n.id = id

/-- A resolved link has the endpoints and category of the link it came from. -/
def Resolves (l : Link) (r : ResolvedLink) : Prop :=
  r.source.id = l.source ∧ r.target.id = l.target ∧ r.category = l.category

/-- The page of `select(none)`: no class on any element, placeholder details. -/
def neutralView (app : App) : View :=
  { nodes := app.nodes.map (fun _ => { dimmed := false, highlight := false }),
    labels := app.nodes.map (fun _ => false),
    links := app.links.map (fun _ => { dimmed := false, highlight := false }),
    details := Details.placeholder }

/-- A record whose system name is the empty string. -/
def unnamed : SystemEntry :=
  { system := "", lists := [("core_resolution", ["x"])] }

/-- A record named like the tag id `core_resolution:x`, which it also carries. -/
def clash : SystemEntry :=
  { system := "core_resolution:x",
    lists := [("core_resolution", ["x"]), ("genre_scope", ["g"])] }

/-- The page before anything is drawn. -/
def blankView : View :=
  { nodes := [], labels := [], links := [], details := Details.placeholder }

/-- A system-type node datum whose id no node of the worked example carries. -/
def strangerSystem : Node :=
  { id := "Unknown", label := "Unknown", category := none, type := NodeType.system }

/-- A tag-type node datum whose id no node of the worked example carries. -/
def strangerTag : Node :=
  { id := "Unknown", label := "Unknown", category := none, type := NodeType.tag }

/-! ## Maps and sets -/

theorem mapGet_cons {β : Type} (k0 : String) (v0 : β) (rest : List (String × β))
    (k' : String) :
    mapGet ((k0, v0) :: rest) k' = if k' = k0 then some v0 else mapGet rest k' := by
  unfold mapGet
  by_cases h : k' = k0
  · subst h; simp
  · have hb : (k' == k0) = false := by simpa using h
    simp [List.lookup, hb, h]

theorem mapGet_mapSet {β : Type} (m : List (String × β)) (k k' : String) (v : β) :
    mapGet (mapSet m k v) k' = if k' = k then some v else mapGet m k' := by
  induction m with
  | nil =>
    simp only [mapSet, mapGet_cons]
  | cons p rest ih =>
    obtain ⟨k0, v0⟩ := p
    by_cases h0 : k = k0
    · subst h0
      simp only [mapSet, if_true, mapGet_cons]
      split_ifs <;> rfl
    · simp only [mapSet, h0, if_false, mapGet_cons, ih]
      by_cases h1 : k' = k0
      · have h2 : ¬ k' = k := fun h => h0 (h ▸ h1)
        have h3 : ¬ k0 = k := fun h => h0 h.symm
        simp [h1, h3]
      · simp [h1]

theorem mapHas_mapSet {β : Type} (m : List (String × β)) (k k' : String) (v : β) :
    mapHas (mapSet m k v) k' = (decide (k' = k) || mapHas m k') := by
  unfold mapHas
  rw [mapGet_mapSet]
  by_cases h : k' = k <;> simp [h]

theorem mem_setAdd (s : List String) (b x : String) :
    x ∈ setAdd s b ↔ x ∈ s ∨ x = b := by
  unfold setAdd
  by_cases h : b ∈ s
  · simp only [h, if_true]
    constructor
    · intro hx; exact Or.inl hx
    · rintro (hx | hx)
      · exact hx
      · rw [hx]; exact h
  · simp [h]

theorem setAdd_nodup (s : List String) (b : String) (h : s.Nodup) : (setAdd s b).Nodup := by
  unfold setAdd
  by_cases hb : b ∈ s
  · simpa [hb] using h
  · simp only [hb, if_false]
    exact List.Nodup.append h (List.nodup_singleton b) (by simpa using hb)

theorem mapGet_registerNeighbor (m : List (String × List String)) (a b a' : String) :
    mapGet (registerNeighbor m a b) a' =
      if a' = a then some (setAdd (neighborsOf m a) b) else mapGet m a' := by
  unfold registerNeighbor neighborsOf
  by_cases hh : mapHas m a = true
  · simp only [hh, Bool.not_true, Bool.false_eq_true, if_false]
    rw [mapGet_mapSet]
  · have hn : mapGet m a = none := by
      unfold mapHas at hh
      cases hg : mapGet m a with
      | none => rfl
      | some x => simp [hg] at hh
    simp only [hh, Bool.not_false, if_true, Bool.not_eq_true] at *
    rw [mapGet_mapSet, mapGet_mapSet, mapGet_mapSet]
    by_cases h : a' = a
    · simp [h, hn]
    · simp [h]

theorem mem_neighborsOf_registerNeighbor (m : List (String × List String))
    (a b a' x : String) :
    x ∈ neighborsOf (registerNeighbor m a b) a' ↔
      x ∈ neighborsOf m a' ∨ (a' = a ∧ x = b) := by
  unfold neighborsOf
  rw [mapGet_registerNeighbor]
  by_cases h : a' = a
  · subst h
    simp [mem_setAdd, neighborsOf]
  · simp [h]

/-! ## The loops of `buildGraph` as folds over triples -/

theorem foldl_flatMap_eq {α β σ : Type} (f : σ → β → σ) (g : α → List β) (l : List α)
    (init : σ) :
    (l.flatMap g).foldl f init = l.foldl (fun acc x => (g x).foldl f acc) init := by
  induction l generalizing init with
  | nil => rfl
  | cons x xs ih => simp [List.flatMap_cons, List.foldl_append, ih]

theorem processCategory_eq (r : SystemEntry) (s : String) (st : GraphState) (c : String) :
    processCategory r s st c =
      ((r.values c).map (fun v => (s, c, v))).foldl tripleStep st := by
  unfold processCategory
  rw [List.foldl_map]
  rfl

theorem processEntry_eq (st : GraphState) (r : SystemEntry) :
    processEntry st r = (entryTriples r).foldl tripleStep (withSystemNode st r) := by
  unfold entryTriples
  rw [foldl_flatMap_eq]
  have hf : processCategory r r.system =
      fun acc x => ((r.values x).map (fun v => (r.system, x, v))).foldl tripleStep acc := by
    funext acc x
    exact processCategory_eq r r.system acc x
  unfold processEntry
  simp only [hf]
  rfl

/-! ### Links -/

theorem tripleStep_links (st : GraphState) (t : String × String × String) :
    (tripleStep st t).links = st.links ++ [linkOf t] := by
  unfold tripleStep processValue linkOf
  by_cases h : mapHas st.tagNodes (tagIdOf t.2.1 t.2.2) = true <;> simp [h]

theorem foldl_tripleStep_links (T : List (String × String × String)) (st : GraphState) :
    (T.foldl tripleStep st).links = st.links ++ T.map linkOf := by
  induction T generalizing st with
  | nil => simp
  | cons t T ih => simp [ih, tripleStep_links]

theorem processEntry_links (st : GraphState) (r : SystemEntry) :
    (processEntry st r).links = st.links ++ (entryTriples r).map linkOf := by
  rw [processEntry_eq, foldl_tripleStep_links]
  rfl

theorem foldl_processEntry_links (data : List SystemEntry) (st : GraphState) :
    (data.foldl processEntry st).links = st.links ++ (triples data).map linkOf := by
  induction data generalizing st with
  | nil => simp [triples]
  | cons r rs ih =>
    simp only [List.foldl_cons, ih, processEntry_links]
    simp [triples, List.flatMap_cons]

theorem buildGraph_links (data : List SystemEntry) :
    (buildGraph data).links = (triples data).map linkOf := by
  unfold buildGraph
  rw [foldl_processEntry_links]
  rfl

/-! ### Neighbour index -/

theorem tripleStep_neighborMap (st : GraphState) (t : String × String × String) :
    (tripleStep st t).neighborMap =
      registerNeighbor (registerNeighbor st.neighborMap t.1 (tagIdOf t.2.1 t.2.2))
        (tagIdOf t.2.1 t.2.2) t.1 := by
  unfold tripleStep processValue
  by_cases h : mapHas st.tagNodes (tagIdOf t.2.1 t.2.2) = true <;> simp [h]

theorem joins_symm (t : String × String × String) (a b : String) :
    joins t a b ↔ joins t b a := by
  unfold joins
  constructor <;> rintro (⟨h1, h2⟩ | ⟨h1, h2⟩)
  · exact Or.inr ⟨h2, h1⟩
  · exact Or.inl ⟨h2, h1⟩
  · exact Or.inr ⟨h2, h1⟩
  · exact Or.inl ⟨h2, h1⟩

theorem tripleStep_neighbors (st : GraphState) (t : String × String × String)
    (a b : String) :
    b ∈ neighborsOf (tripleStep st t).neighborMap a ↔
      b ∈ neighborsOf st.neighborMap a ∨ joins t a b := by
  rw [tripleStep_neighborMap, mem_neighborsOf_registerNeighbor,
    mem_neighborsOf_registerNeighbor]
  unfold joins
  tauto

theorem foldl_tripleStep_neighbors (T : List (String × String × String)) (st : GraphState)
    (a b : String) :
    b ∈ neighborsOf (T.foldl tripleStep st).neighborMap a ↔
      b ∈ neighborsOf st.neighborMap a ∨ ∃ t ∈ T, joins t a b := by
  induction T generalizing st with
  | nil => simp
  | cons t T ih =>
    simp only [List.foldl_cons, ih, tripleStep_neighbors, List.mem_cons]
    constructor
    · rintro ((h | h) | ⟨t', ht', h⟩)
      · exact Or.inl h
      · exact Or.inr ⟨t, Or.inl rfl, h⟩
      · exact Or.inr ⟨t', Or.inr ht', h⟩
    · rintro (h | ⟨t', (ht' | ht'), h⟩)
      · exact Or.inl (Or.inl h)
      · exact Or.inl (Or.inr (ht' ▸ h))
      · exact Or.inr ⟨t', ht', h⟩

theorem processEntry_neighbors (st : GraphState) (r : SystemEntry) (a b : String) :
    b ∈ neighborsOf (processEntry st r).neighborMap a ↔
      b ∈ neighborsOf st.neighborMap a ∨ ∃ t ∈ entryTriples r, joins t a b := by
  rw [processEntry_eq, foldl_tripleStep_neighbors]
  rfl

theorem foldl_processEntry_neighbors (data : List SystemEntry) (st : GraphState)
    (a b : String) :
    b ∈ neighborsOf (data.foldl processEntry st).neighborMap a ↔
      b ∈ neighborsOf st.neighborMap a ∨ ∃ t ∈ triples data, joins t a b := by
  induction data generalizing st with
  | nil => simp [triples]
  | cons r rs ih =>
    simp only [List.foldl_cons, ih, processEntry_neighbors, triples, List.flatMap_cons,
      List.mem_append]
    constructor
    · rintro ((h | ⟨t, ht, h⟩) | ⟨t, ht, h⟩)
      · exact Or.inl h
      · exact Or.inr ⟨t, Or.inl ht, h⟩
      · exact Or.inr ⟨t, Or.inr ht, h⟩
    · rintro (h | ⟨t, (ht | ht), h⟩)
      · exact Or.inl (Or.inl h)
      · exact Or.inl (Or.inr ⟨t, ht, h⟩)
      · exact Or.inr ⟨t, ht, h⟩

theorem buildGraph_neighbors (data : List SystemEntry) (a b : String) :
    b ∈ neighborsOf (buildGraph data).neighborMap a ↔ ∃ t ∈ triples data, joins t a b := by
  unfold buildGraph
  rw [foldl_processEntry_neighbors]
  simp [GraphState.empty, neighborsOf, mapGet]

/-! ### Tag ids -/

theorem mem_entryTriples (r : SystemEntry) (t : String × String × String) :
    t ∈ entryTriples r ↔ ∃ c ∈ categories, ∃ v ∈ r.values c, t = (r.system, c, v) := by
  unfold entryTriples
  simp only [List.mem_flatMap, List.mem_map]
  constructor
  · rintro ⟨c, hc, v, hv, rfl⟩
    exact ⟨c, hc, v, hv, rfl⟩
  · rintro ⟨c, hc, v, hv, rfl⟩
    exact ⟨c, hc, v, hv, rfl⟩

theorem mem_triples (data : List SystemEntry) (t : String × String × String) :
    t ∈ triples data ↔
      ∃ r ∈ data, ∃ c ∈ categories, ∃ v ∈ r.values c, t = (r.system, c, v) := by
  unfold triples
  simp only [List.mem_flatMap, mem_entryTriples]

theorem category_of_mem_entryTriples {r : SystemEntry} {t : String × String × String}
    (h : t ∈ entryTriples r) : t.2.1 ∈ categories := by
  obtain ⟨c, hc, v, _, rfl⟩ := (mem_entryTriples r t).1 h
  exact hc

theorem colon_not_mem_category : ∀ c ∈ categories, ':' ∉ c.data := by
  decide

theorem append_cons_inj_of_not_mem {α : Type} (x : α) :
    ∀ (l₁ l₂ r₁ r₂ : List α), x ∉ l₁ → x ∉ l₂ →
      l₁ ++ x :: r₁ = l₂ ++ x :: r₂ → l₁ = l₂ ∧ r₁ = r₂
  | [], [], r₁, r₂, _, _, h => by
    simp only [List.nil_append, List.cons.injEq, true_and] at h
    exact ⟨rfl, h⟩
  | [], b :: l₂, r₁, r₂, _, h₂, h => by
    simp only [List.nil_append, List.cons_append, List.cons.injEq] at h
    exact absurd (List.mem_cons.2 (Or.inl h.1)) h₂
  | a :: l₁, [], r₁, r₂, h₁, _, h => by
    simp only [List.nil_append, List.cons_append, List.cons.injEq] at h
    exact absurd (List.mem_cons.2 (Or.inl h.1.symm)) h₁
  | a :: l₁, b :: l₂, r₁, r₂, h₁, h₂, h => by
    simp only [List.cons_append, List.cons.injEq] at h
    have ih := append_cons_inj_of_not_mem x l₁ l₂ r₁ r₂
      (fun hm => h₁ (List.mem_cons_of_mem _ hm)) (fun hm => h₂ (List.mem_cons_of_mem _ hm)) h.2
    exact ⟨by rw [h.1, ih.1], ih.2⟩

theorem tagIdOf_data (c v : String) : (tagIdOf c v).data = c.data ++ ':' :: v.data := by
  unfold tagIdOf
  simp [String.data_append]

theorem tagIdOf_inj {c c' v v' : String} (hc : c ∈ categories) (hc' : c' ∈ categories)
    (h : tagIdOf c v = tagIdOf c' v') : c = c' ∧ v = v' := by
  have hd : c.data ++ ':' :: v.data = c'.data ++ ':' :: v'.data := by
    rw [← tagIdOf_data, ← tagIdOf_data, h]
  have := append_cons_inj_of_not_mem ':' c.data c'.data v.data v'.data
    (colon_not_mem_category c hc) (colon_not_mem_category c' hc') hd
  exact ⟨String.ext this.1, String.ext this.2⟩

theorem tagIdOf_ne_empty (c v : String) : tagIdOf c v ≠ "" := by
  intro h
  have := congrArg String.data h
  rw [tagIdOf_data] at this
  simp at this

/-! ### Nodes and the `tagNodes` map -/

theorem tagInv_empty : TagInv GraphState.empty := by
  refine ⟨?_, ?_, ?_⟩
  · intro id
    simp [GraphState.empty, mapHas, mapGet, tagNodesIn]
  · simp [GraphState.empty, tagNodesIn]
  · simp [GraphState.empty, tagNodesIn]

theorem tagNodesIn_append (l₁ l₂ : List Node) :
    tagNodesIn (l₁ ++ l₂) = tagNodesIn l₁ ++ tagNodesIn l₂ := by
  unfold tagNodesIn
  exact List.filter_append _ _

theorem mem_tagNodesIn (l : List Node) (n : Node) :
    n ∈ tagNodesIn l ↔ n ∈ l ∧ n.type = NodeType.tag := by
  unfold tagNodesIn
  simp [List.mem_filter]

theorem withSystemNode_tagNodesIn (st : GraphState) (r : SystemEntry) :
    tagNodesIn (withSystemNode st r).nodes = tagNodesIn st.nodes := by
  unfold withSystemNode
  simp [tagNodesIn_append, tagNodesIn]

theorem tagInv_withSystemNode {st : GraphState} (r : SystemEntry) (h : TagInv st) :
    TagInv (withSystemNode st r) := by
  refine ⟨?_, ?_, ?_⟩
  · intro id
    rw [withSystemNode_tagNodesIn]
    exact h.has_iff id
  · rw [withSystemNode_tagNodesIn]
    exact h.nodup
  · rw [withSystemNode_tagNodesIn]
    exact h.shape

theorem tripleStep_nodes (st : GraphState) (t : String × String × String) :
    (tripleStep st t).nodes =
      if mapHas st.tagNodes (tagIdOf t.2.1 t.2.2) = true then st.nodes
      else st.nodes ++ [tagNodeOf t.2.1 t.2.2] := by
  unfold tripleStep processValue tagNodeOf
  by_cases h : mapHas st.tagNodes (tagIdOf t.2.1 t.2.2) = true <;> simp [h]

theorem tripleStep_tagNodes (st : GraphState) (t : String × String × String) :
    (tripleStep st t).tagNodes =
      if mapHas st.tagNodes (tagIdOf t.2.1 t.2.2) = true then st.tagNodes
      else mapSet st.tagNodes (tagIdOf t.2.1 t.2.2) (tagNodeOf t.2.1 t.2.2) := by
  unfold tripleStep processValue tagNodeOf
  by_cases h : mapHas st.tagNodes (tagIdOf t.2.1 t.2.2) = true <;> simp [h]

theorem tripleStep_systemNodes (st : GraphState) (t : String × String × String) :
    (tripleStep st t).systemNodes = st.systemNodes := by
  unfold tripleStep processValue
  by_cases h : mapHas st.tagNodes (tagIdOf t.2.1 t.2.2) = true <;> simp [h]

theorem tagNodesIn_singleton_tag (c v : String) :
    tagNodesIn [tagNodeOf c v] = [tagNodeOf c v] := by
  simp [tagNodesIn, tagNodeOf]

theorem tagInv_tripleStep {st : GraphState} (t : String × String × String)
    (h : TagInv st) (hc : t.2.1 ∈ categories) : TagInv (tripleStep st t) := by
  by_cases hh : mapHas st.tagNodes (tagIdOf t.2.1 t.2.2) = true
  · have hn : (tripleStep st t).nodes = st.nodes := by rw [tripleStep_nodes, if_pos hh]
    have ht : (tripleStep st t).tagNodes = st.tagNodes := by
      rw [tripleStep_tagNodes, if_pos hh]
    exact ⟨by rw [hn, ht]; exact h.has_iff, by rw [hn]; exact h.nodup,
      by rw [hn]; exact h.shape⟩
  · have hn : tagNodesIn (tripleStep st t).nodes =
        tagNodesIn st.nodes ++ [tagNodeOf t.2.1 t.2.2] := by
      rw [tripleStep_nodes, if_neg hh, tagNodesIn_append, tagNodesIn_singleton_tag]
    have ht : (tripleStep st t).tagNodes =
        mapSet st.tagNodes (tagIdOf t.2.1 t.2.2) (tagNodeOf t.2.1 t.2.2) := by
      rw [tripleStep_tagNodes, if_neg hh]
    refine ⟨?_, ?_, ?_⟩
    · intro id
      rw [hn, ht, mapHas_mapSet]
      simp only [Bool.or_eq_true, decide_eq_true_eq, List.mem_append, List.mem_singleton]
      rw [h.has_iff id]
      constructor
      · rintro (rfl | ⟨n, hn', hid⟩)
        · exact ⟨tagNodeOf t.2.1 t.2.2, Or.inr rfl, rfl⟩
        · exact ⟨n, Or.inl hn', hid⟩
      · rintro ⟨n, (hn' | rfl), hid⟩
        · exact Or.inr ⟨n, hn', hid⟩
        · exact Or.inl hid.symm
    · rw [hn, List.map_append, List.nodup_append]
      refine ⟨h.nodup, List.nodup_singleton _, ?_⟩
      intro a ha hb
      simp only [List.map_cons, List.map_nil, List.mem_singleton] at hb
      obtain ⟨n, hn', rfl⟩ := List.mem_map.1 ha
      exact hh ((h.has_iff _).2 ⟨n, hn', hb⟩)
    · intro n hmem
      rw [hn, List.mem_append, List.mem_singleton] at hmem
      rcases hmem with hmem | rfl
      · exact h.shape n hmem
      · exact ⟨t.2.1, hc, t.2.2, rfl⟩

theorem mem_tripleStep_tagNodes {st : GraphState} (t : String × String × String)
    (h : TagInv st) (hc : t.2.1 ∈ categories) (n : Node) :
    n ∈ tagNodesIn (tripleStep st t).nodes ↔
      n ∈ tagNodesIn st.nodes ∨ n = tagNodeOf t.2.1 t.2.2 := by
  by_cases hh : mapHas st.tagNodes (tagIdOf t.2.1 t.2.2) = true
  · rw [tripleStep_nodes, if_pos hh]
    constructor
    · exact Or.inl
    · rintro (hn | rfl)
      · exact hn
      · obtain ⟨n', hn', hid⟩ := (h.has_iff _).1 hh
        obtain ⟨c', hc', v', rfl⟩ := h.shape n' hn'
        obtain ⟨rfl, rfl⟩ := tagIdOf_inj hc' hc hid
        exact hn'
  · rw [tripleStep_nodes, if_neg hh, tagNodesIn_append, tagNodesIn_singleton_tag]
    simp

theorem foldl_tripleStep_tags (T : List (String × String × String)) (st : GraphState)
    (h : TagInv st) (hT : ∀ t ∈ T, t.2.1 ∈ categories) :
    TagInv (T.foldl tripleStep st) ∧
      ∀ n, n ∈ tagNodesIn (T.foldl tripleStep st).nodes ↔
        n ∈ tagNodesIn st.nodes ∨ ∃ t ∈ T, n = tagNodeOf t.2.1 t.2.2 := by
  induction T generalizing st with
  | nil => exact ⟨h, by simp⟩
  | cons t T ih =>
    have hc : t.2.1 ∈ categories := hT t (List.mem_cons_self _ _)
    obtain ⟨hinv, hmem⟩ := ih (tripleStep st t) (tagInv_tripleStep t h hc)
      (fun t' ht' => hT t' (List.mem_cons_of_mem _ ht'))
    refine ⟨hinv, ?_⟩
    intro n
    simp only [List.foldl_cons, hmem, mem_tripleStep_tagNodes t h hc, List.mem_cons]
    constructor
    · rintro ((hn | rfl) | ⟨t', ht', rfl⟩)
      · exact Or.inl hn
      · exact Or.inr ⟨t, Or.inl rfl, rfl⟩
      · exact Or.inr ⟨t', Or.inr ht', rfl⟩
    · rintro (hn | ⟨t', (rfl | ht'), rfl⟩)
      · exact Or.inl (Or.inl hn)
      · exact Or.inl (Or.inr rfl)
      · exact Or.inr ⟨t', ht', rfl⟩

theorem processEntry_tags (st : GraphState) (r : SystemEntry) (h : TagInv st) :
    TagInv (processEntry st r) ∧
      ∀ n, n ∈ tagNodesIn (processEntry st r).nodes ↔
        n ∈ tagNodesIn st.nodes ∨ ∃ t ∈ entryTriples r, n = tagNodeOf t.2.1 t.2.2 := by
  rw [processEntry_eq]
  have := foldl_tripleStep_tags (entryTriples r) (withSystemNode st r)
    (tagInv_withSystemNode r h) (fun t ht => category_of_mem_entryTriples ht)
  rw [withSystemNode_tagNodesIn] at this
  exact this

theorem foldl_processEntry_tags (data : List SystemEntry) (st : GraphState) (h : TagInv st) :
    TagInv (data.foldl processEntry st) ∧
      ∀ n, n ∈ tagNodesIn (data.foldl processEntry st).nodes ↔
        n ∈ tagNodesIn st.nodes ∨ ∃ t ∈ triples data, n = tagNodeOf t.2.1 t.2.2 := by
  induction data generalizing st with
  | nil => exact ⟨h, by simp [triples]⟩
  | cons r rs ih =>
    obtain ⟨h1, m1⟩ := processEntry_tags st r h
    obtain ⟨h2, m2⟩ := ih (processEntry st r) h1
    refine ⟨h2, ?_⟩
    intro n
    simp only [List.foldl_cons, m2, m1, triples, List.flatMap_cons, List.mem_append]
    constructor
    · rintro ((hn | ⟨t, ht, rfl⟩) | ⟨t, ht, rfl⟩)
      · exact Or.inl hn
      · exact Or.inr ⟨t, Or.inl ht, rfl⟩
      · exact Or.inr ⟨t, Or.inr ht, rfl⟩
    · rintro (hn | ⟨t, (ht | ht), rfl⟩)
      · exact Or.inl (Or.inl hn)
      · exact Or.inl (Or.inr ⟨t, ht, rfl⟩)
      · exact Or.inr ⟨t, ht, rfl⟩

theorem buildGraph_tagInv (data : List SystemEntry) : TagInv (buildGraph data) :=
  (foldl_processEntry_tags data GraphState.empty tagInv_empty).1

theorem mem_buildGraph_tagNodes (data : List SystemEntry) (n : Node) :
    n ∈ tagNodesIn (buildGraph data).nodes ↔
      ∃ t ∈ triples data, n = tagNodeOf t.2.1 t.2.2 := by
  unfold buildGraph
  rw [(foldl_processEntry_tags data GraphState.empty tagInv_empty).2]
  simp [GraphState.empty, tagNodesIn]

/-! ## Claims on `buildGraph` -/

theorem triples_nodup (data : List SystemEntry)
    (hnames : (data.map (fun r => r.system)).Nodup)
    (hvals : ∀ r ∈ data, ∀ c ∈ categories, (r.values c).Nodup) :
    (triples data).Nodup := by
  unfold triples
  rw [List.nodup_flatMap]
  constructor
  · intro r hr
    unfold entryTriples
    rw [List.nodup_flatMap]
    constructor
    · intro c hc
      refine (hvals r hr c hc).map_on ?_
      intro v _ v' _ h
      simpa using h
    · have hcat : categories.Nodup := by decide
      refine hcat.imp ?_
      intro c c' hne t h1 h2
      obtain ⟨v, _, rfl⟩ := List.mem_map.1 h1
      obtain ⟨v', _, h⟩ := List.mem_map.1 h2
      simp only [Prod.mk.injEq, true_and] at h
      exact hne h.1.symm
  · have hp : List.Pairwise (fun a b : SystemEntry => a.system ≠ b.system) data :=
      List.pairwise_map.1 hnames
    refine hp.imp ?_
    intro r r' hne t h1 h2
    obtain ⟨c, _, v, _, rfl⟩ := (mem_entryTriples r t).1 h1
    obtain ⟨c', _, v', _, h⟩ := (mem_entryTriples r' _).1 h2
    simp only [Prod.mk.injEq] at h
    exact hne h.1

/-- C1: the tag nodes of `buildGraph(data).nodes` are exactly the nodes
`{id: category:value, label: value, category}` of the (category, value) pairs
that occur in some record's list for one of the ten categories, each such node
occurs once, no two tag nodes share an id, and two pairs over the ten
categories get the same id only when they are the same pair. -/
theorem buildGraph_tag_nodes (data : List SystemEntry) :
    (∀ n, n ∈ tagNodesIn (buildGraph data).nodes ↔
        ∃ r ∈ data, ∃ c ∈ categories, ∃ v ∈ r.values c,
          n = { id := tagIdOf c v, label := v, category := some c,
                type := NodeType.tag }) ∧
    ((tagNodesIn (buildGraph data).nodes).map (fun n => n.id)).Nodup ∧
    (∀ r ∈ data, ∀ c ∈ categories, ∀ v ∈ r.values c,
        (tagNodesIn (buildGraph data).nodes).count
          { id := tagIdOf c v, label := v, category := some c, type := NodeType.tag } = 1) ∧
    (∀ c ∈ categories, ∀ c' ∈ categories, ∀ v v',
        tagIdOf c v = tagIdOf c' v' → c = c' ∧ v = v') := by
  have hmem : ∀ n, n ∈ tagNodesIn (buildGraph data).nodes ↔
        ∃ r ∈ data, ∃ c ∈ categories, ∃ v ∈ r.values c,
          n = { id := tagIdOf c v, label := v, category := some c,
                type := NodeType.tag } := by
    intro n
    rw [mem_buildGraph_tagNodes]
    constructor
    · rintro ⟨t, ht, rfl⟩
      obtain ⟨r, hr, c, hc, v, hv, rfl⟩ := (mem_triples data t).1 ht
      exact ⟨r, hr, c, hc, v, hv, rfl⟩
    · rintro ⟨r, hr, c, hc, v, hv, rfl⟩
      exact ⟨(r.system, c, v), (mem_triples data _).2 ⟨r, hr, c, hc, v, hv, rfl⟩, rfl⟩
  have hnd := (buildGraph_tagInv data).nodup
  refine ⟨hmem, hnd, ?_, ?_⟩
  · intro r hr c hc v hv
    exact List.count_eq_one_of_mem (List.Nodup.of_map _ hnd)
      ((hmem _).2 ⟨r, hr, c, hc, v, hv, rfl⟩)
  · intro c hc c' hc' v v' h
    exact tagIdOf_inj hc hc' h

/-- C2: the neighbour index of `buildGraph(data)` is symmetric, an absent key
counting as the empty set. -/
theorem buildGraph_neighborMap_symmetric (data : List SystemEntry) (a b : String) :
    b ∈ neighborsOf (buildGraph data).neighborMap a ↔
      a ∈ neighborsOf (buildGraph data).neighborMap b := by
  rw [buildGraph_neighbors, buildGraph_neighbors]
  constructor
  · rintro ⟨t, ht, h⟩
    exact ⟨t, ht, (joins_symm t a b).1 h⟩
  · rintro ⟨t, ht, h⟩
    exact ⟨t, ht, (joins_symm t b a).1 h⟩

/-- C3, as stated, fails: a record whose `core_resolution` list holds the value
`x` twice gives two links with the same `(source, target)` pair. -/
theorem buildGraph_links_repeat :
    ¬ ((buildGraph [repeated]).links.map Link.endpoints).Nodup := by
  decide

/-- C3, amended: when the system names of the input are pairwise distinct and
no category list of a record repeats a value, no two entries of
`buildGraph(data).links` have the same `(source, target)` pair. -/
theorem buildGraph_links_nodup (data : List SystemEntry)
    (hnames : (data.map (fun r => r.system)).Nodup)
    (hvals : ∀ r ∈ data, ∀ c ∈ categories, (r.values c).Nodup) :
    ((buildGraph data).links.map Link.endpoints).Nodup := by
  rw [buildGraph_links, List.map_map]
  refine (triples_nodup data hnames hvals).map_on ?_
  intro t ht t' ht' h
  obtain ⟨r, _, c, hc, v, _, rfl⟩ := (mem_triples data t).1 ht
  obtain ⟨r', _, c', hc', v', _, rfl⟩ := (mem_triples data t').1 ht'
  simp only [Function.comp, Link.endpoints, linkOf, Prod.mk.injEq] at h
  obtain ⟨rfl, rfl⟩ := tagIdOf_inj hc hc' h.2
  rw [h.1]

/-- C3, amended, on the two records of the worked example. -/
theorem buildGraph_links_nodup_witness :
    (([fate, blades].map (fun r => r.system)).Nodup ∧
      ∀ r ∈ [fate, blades], ∀ c ∈ categories, (r.values c).Nodup) ∧
    ((buildGraph [fate, blades]).links.map Link.endpoints).Nodup :=
  ⟨⟨by decide, by decide⟩, buildGraph_links_nodup [fate, blades] (by decide) (by decide)⟩

theorem mem_neighborsOf_iff_link (data : List SystemEntry) (a b : String) :
    b ∈ neighborsOf (buildGraph data).neighborMap a ↔
      ∃ l ∈ (buildGraph data).links,
        (l.source = a ∧ l.target = b) ∨ (l.source = b ∧ l.target = a) := by
  rw [buildGraph_neighbors, buildGraph_links]
  constructor
  · rintro ⟨t, ht, h⟩
    refine ⟨linkOf t, List.mem_map_of_mem _ ht, ?_⟩
    rcases h with ⟨h1, h2⟩ | ⟨h1, h2⟩
    · exact Or.inl ⟨h1.symm, h2.symm⟩
    · exact Or.inr ⟨h2.symm, h1.symm⟩
  · rintro ⟨l, hl, h⟩
    obtain ⟨t, ht, rfl⟩ := List.mem_map.1 hl
    refine ⟨t, ht, ?_⟩
    rcases h with ⟨h1, h2⟩ | ⟨h1, h2⟩
    · exact Or.inl ⟨h1.symm, h2.symm⟩
    · exact Or.inr ⟨h2.symm, h1.symm⟩

/-- C4: `b` is in the neighbour set of `a` exactly when `links` holds an edge
whose endpoints are `a` and `b`, in either direction; an absent key counts as
the empty set. -/
theorem buildGraph_neighbors_iff_link (data : List SystemEntry) (a b : String) :
    b ∈ neighborsOf (buildGraph data).neighborMap a ↔
      ∃ l ∈ (buildGraph data).links,
        (l.source = a ∧ l.target = b) ∨ (l.source = b ∧ l.target = a) :=
  mem_neighborsOf_iff_link data a b

/-- C5: `buildGraph(data).links` is, in order, the list obtained from the
records in input order, the categories in the order of `categories` and the
values in list order, a missing or empty list giving nothing; a record none of
whose category lists has a value adds its system node and no edge, tag node or
neighbour entry. -/
theorem buildGraph_links_in_order (data : List SystemEntry) :
    (buildGraph data).links =
        data.flatMap (fun r => categories.flatMap (fun c => (r.values c).map (fun v =>
          { source := r.system, target := tagIdOf c v, category := c }))) ∧
    (∀ r : SystemEntry, r.lists = [] → ∀ c, r.values c = []) ∧
    (∀ (st : GraphState) (r : SystemEntry), (∀ c ∈ categories, r.values c = []) →
        processEntry st r =
          { st with
            nodes := st.nodes ++ [{ id := r.system, label := r.system, category := none,
                                    type := NodeType.system }],
            systemNodes := mapSet st.systemNodes r.system r }) ∧
    (∀ (pre post : List SystemEntry) (r : SystemEntry),
        (∀ c ∈ categories, r.values c = []) →
        (buildGraph (pre ++ r :: post)).links = (buildGraph (pre ++ post)).links ∧
        ∀ n, n ∈ tagNodesIn (buildGraph (pre ++ r :: post)).nodes ↔
          n ∈ tagNodesIn (buildGraph (pre ++ post)).nodes) := by
  have hnone : ∀ r : SystemEntry, (∀ c ∈ categories, r.values c = []) →
      entryTriples r = [] := by
    intro r h
    unfold entryTriples
    rw [List.flatMap_eq_nil_iff]
    intro c hc
    simp [h c hc]
  refine ⟨?_, ?_, ?_, ?_⟩
  · rw [buildGraph_links]
    unfold triples entryTriples
    simp only [List.map_flatMap, List.map_map]
    rfl
  · intro r hr c
    simp [SystemEntry.values, SystemEntry.prop, hr]
  · intro st r h
    rw [processEntry_eq, hnone r h]
    rfl
  · intro pre post r h
    have ht : triples (pre ++ r :: post) = triples (pre ++ post) := by
      unfold triples
      simp [List.flatMap_append, List.flatMap_cons, hnone r h]
    refine ⟨by rw [buildGraph_links, buildGraph_links, ht], ?_⟩
    intro n
    rw [mem_buildGraph_tagNodes, mem_buildGraph_tagNodes, ht]

/-! ## The sort order -/

theorem unitsLt_irrefl : ∀ a : List Nat, unitsLt a a = false
  | [] => rfl
  | x :: xs => by simp [unitsLt, unitsLt_irrefl xs]

theorem unitsLt_asymm : ∀ a b : List Nat, unitsLt a b = true → unitsLt b a = false
  | [], [], _ => rfl
  | [], _ :: _, _ => rfl
  | _ :: _, [], h => by simp [unitsLt] at h
  | x :: xs, y :: ys, h => by
    unfold unitsLt at h ⊢
    by_cases h1 : x < y
    · have h2 : ¬ y < x := by omega
      simp [h1, h2]
    · by_cases h2 : y < x
      · simp [h1, h2] at h
      · simp only [h1, h2, if_false] at h ⊢
        exact unitsLt_asymm xs ys h

theorem unitsLt_trans : ∀ a b c : List Nat,
    unitsLt a b = true → unitsLt b c = true → unitsLt a c = true
  | [], _, [], _, h2 => by cases ‹List Nat› <;> simp [unitsLt] at h2
  | [], _, _ :: _, _, _ => rfl
  | _ :: _, [], _, h1, _ => by simp [unitsLt] at h1
  | _ :: _, _ :: _, [], _, h2 => by simp [unitsLt] at h2
  | x :: xs, y :: ys, z :: zs, h1, h2 => by
    unfold unitsLt at h1 h2 ⊢
    by_cases hxy : x < y
    · by_cases hyz : y < z
      · have : x < z := by omega
        simp [this]
      · by_cases hzy : z < y
        · simp [hyz, hzy] at h2
        · have : x < z := by omega
          simp [this]
    · by_cases hyx : y < x
      · simp [hxy, hyx] at h1
      · simp only [hxy, hyx, if_false] at h1
        have hxy' : x = y := by omega
        subst hxy'
        by_cases hxz : x < z
        · simp [hxz]
        · by_cases hzx : z < x
          · simp [hxz, hzx] at h2
          · simp only [hxz, hzx, if_false] at h2 ⊢
            exact unitsLt_trans xs ys zs h1 h2

theorem unitsLt_connected : ∀ a b : List Nat,
    unitsLt a b = false → unitsLt b a = false → a = b
  | [], [], _, _ => rfl
  | [], _ :: _, h, _ => by simp [unitsLt] at h
  | _ :: _, [], _, h => by simp [unitsLt] at h
  | x :: xs, y :: ys, h1, h2 => by
    unfold unitsLt at h1 h2
    by_cases hxy : x < y
    · simp [hxy] at h1
    · by_cases hyx : y < x
      · simp [hyx] at h2
      · simp only [hxy, hyx, if_false] at h1 h2
        have hxy' : x = y := by omega
        rw [hxy', unitsLt_connected xs ys h1 h2]

theorem ascendingLe_iff (a b : String) : ascendingLe a b ↔ jsLt b a = false := by
  unfold ascendingLe ascending
  by_cases h1 : jsLt a b = true
  · have h2 : jsLt b a = false := unitsLt_asymm _ _ h1
    simp [h1, h2]
  · by_cases h2 : jsLt b a = true
    · simp [h1, h2]
    · simp [h1, h2]

theorem ascendingLe_total (a b : String) : ascendingLe a b ∨ ascendingLe b a := by
  rw [ascendingLe_iff, ascendingLe_iff]
  by_cases h : jsLt b a = true
  · exact Or.inr (unitsLt_asymm _ _ h)
  · exact Or.inl (by simpa using h)

theorem ascendingLe_trans (a b c : String) (h1 : ascendingLe a b) (h2 : ascendingLe b c) :
    ascendingLe a c := by
  rw [ascendingLe_iff] at h1 h2 ⊢
  unfold jsLt at h1 h2 ⊢
  by_cases hca : unitsLt (codeUnits c) (codeUnits a) = true
  · exfalso
    by_cases hbc : unitsLt (codeUnits b) (codeUnits c) = true
    · have := unitsLt_trans _ _ _ hbc hca
      simp [this] at h1
    · have heq := unitsLt_connected _ _ (by simpa using hbc) h2
      rw [← heq] at hca
      simp [hca] at h1
  · simpa using hca

theorem sortAscending_sorted (names : List String) :
    (sortAscending names).Sorted ascendingLe :=
  @List.sorted_insertionSort String ascendingLe _ ⟨ascendingLe_total⟩ ⟨ascendingLe_trans⟩ names

theorem sortAscending_perm (names : List String) : (sortAscending names).Perm names :=
  List.perm_insertionSort ascendingLe names

/-! ### System lookup, node list and neighbour sets -/

theorem foldl_tripleStep_systemNodes (T : List (String × String × String))
    (st : GraphState) : (T.foldl tripleStep st).systemNodes = st.systemNodes := by
  induction T generalizing st with
  | nil => rfl
  | cons t T ih => simp [ih, tripleStep_systemNodes]

theorem processEntry_systemNodes (st : GraphState) (r : SystemEntry) :
    (processEntry st r).systemNodes = mapSet st.systemNodes r.system r := by
  rw [processEntry_eq, foldl_tripleStep_systemNodes]
  rfl

theorem foldl_processEntry_systemNodes (data : List SystemEntry) (st : GraphState)
    (h : SystemsKeyed st.systemNodes) :
    SystemsKeyed (data.foldl processEntry st).systemNodes ∧
      ∀ id, (mapHas st.systemNodes id = true ∨ ∃ r ∈ data, r.system = id) →
        mapHas (data.foldl processEntry st).systemNodes id = true := by
  induction data generalizing st with
  | nil =>
    refine ⟨h, ?_⟩
    rintro id (hh | ⟨r, hr, _⟩)
    · exact hh
    · simp at hr
  | cons r rs ih =>
    have hk : SystemsKeyed (processEntry st r).systemNodes := by
      intro id e hget
      rw [processEntry_systemNodes, mapGet_mapSet] at hget
      by_cases hid : id = r.system
      · simp only [hid, if_true, Option.some.injEq] at hget
        rw [← hget, hid]
      · simp only [hid, if_false] at hget
        exact h id e hget
    obtain ⟨h1, h2⟩ := ih (processEntry st r) hk
    refine ⟨h1, ?_⟩
    intro id hid
    apply h2
    rw [processEntry_systemNodes, mapHas_mapSet]
    rcases hid with hh | ⟨r', hr', hid'⟩
    · left; simp [hh]
    · rcases List.mem_cons.1 hr' with rfl | hr''
      · left; simp [hid']
      · exact Or.inr ⟨r', hr'', hid'⟩

theorem buildGraph_systemNodes (data : List SystemEntry) (r : SystemEntry) (hr : r ∈ data) :
    ∃ e, mapGet (buildGraph data).systemNodes r.system = some e ∧ e.system = r.system := by
  have hk0 : SystemsKeyed GraphState.empty.systemNodes := by
    intro id e h
    simp [GraphState.empty, mapGet] at h
  obtain ⟨h1, h2⟩ := foldl_processEntry_systemNodes data GraphState.empty hk0
  have hh := h2 r.system (Or.inr ⟨r, hr, rfl⟩)
  unfold mapHas at hh
  cases hg : mapGet (List.foldl processEntry GraphState.empty data).systemNodes r.system with
  | none => simp [hg] at hh
  | some e => exact ⟨e, hg, h1 _ _ hg⟩

theorem tripleStep_nodes_subset (st : GraphState) (t : String × String × String)
    (n : Node) (h : n ∈ st.nodes) : n ∈ (tripleStep st t).nodes := by
  rw [tripleStep_nodes]
  split
  · exact h
  · exact List.mem_append_left _ h

theorem foldl_tripleStep_nodes_subset (T : List (String × String × String))
    (st : GraphState) (n : Node) (h : n ∈ st.nodes) : n ∈ (T.foldl tripleStep st).nodes := by
  induction T generalizing st with
  | nil => exact h
  | cons t T ih => exact ih _ (tripleStep_nodes_subset st t n h)

theorem foldl_processEntry_nodes (data : List SystemEntry) (st : GraphState) (n : Node)
    (h : n ∈ st.nodes ∨ ∃ r ∈ data, n.id = r.system ∧ n.type = NodeType.system ∧
      n.label = r.system ∧ n.category = none) :
    n ∈ (data.foldl processEntry st).nodes := by
  induction data generalizing st with
  | nil =>
    rcases h with h | ⟨r, hr, _⟩
    · exact h
    · simp at hr
  | cons r rs ih =>
    apply ih
    rcases h with h | ⟨r', hr', h1, h2, h3, h4⟩
    · left
      rw [processEntry_eq]
      exact foldl_tripleStep_nodes_subset _ _ _ (List.mem_append_left _ h)
    · rcases List.mem_cons.1 hr' with rfl | hr''
      · left
        rw [processEntry_eq]
        apply foldl_tripleStep_nodes_subset
        apply List.mem_append_right
        obtain ⟨i, l, c, ty⟩ := n
        simp only at h1 h2 h3 h4
        simp [h1, h2, h3, h4]
      · exact Or.inr ⟨r', hr'', h1, h2, h3, h4⟩

theorem buildGraph_has_system_node (data : List SystemEntry) (r : SystemEntry)
    (hr : r ∈ data) : ∃ n ∈ (buildGraph data).nodes, n.id = r.system :=
  ⟨{ id := r.system, label := r.system, category := none, type := NodeType.system },
    foldl_processEntry_nodes data GraphState.empty _ (Or.inr ⟨r, hr, rfl, rfl, rfl, rfl⟩), rfl⟩

theorem buildGraph_has_tag_node (data : List SystemEntry) (t : String × String × String)
    (ht : t ∈ triples data) : tagNodeOf t.2.1 t.2.2 ∈ (buildGraph data).nodes :=
  ((mem_tagNodesIn _ _).1 ((mem_buildGraph_tagNodes data _).2 ⟨t, ht, rfl⟩)).1

theorem setsNodup_registerNeighbor (m : List (String × List String)) (a b : String)
    (h : SetsNodup m) : SetsNodup (registerNeighbor m a b) := by
  intro a'
  unfold neighborsOf
  rw [mapGet_registerNeighbor]
  by_cases ha : a' = a
  · simp only [ha, if_true, Option.getD_some]
    exact setAdd_nodup _ _ (h a)
  · simp only [ha, if_false]
    exact h a'

theorem foldl_tripleStep_setsNodup (T : List (String × String × String)) (st : GraphState)
    (h : SetsNodup st.neighborMap) : SetsNodup (T.foldl tripleStep st).neighborMap := by
  induction T generalizing st with
  | nil => exact h
  | cons t T ih =>
    apply ih
    rw [tripleStep_neighborMap]
    exact setsNodup_registerNeighbor _ _ _ (setsNodup_registerNeighbor _ _ _ h)

theorem foldl_processEntry_setsNodup (data : List SystemEntry) (st : GraphState)
    (h : SetsNodup st.neighborMap) : SetsNodup (data.foldl processEntry st).neighborMap := by
  induction data generalizing st with
  | nil => exact h
  | cons r rs ih =>
    apply ih
    rw [processEntry_eq]
    exact foldl_tripleStep_setsNodup _ _ h

theorem buildGraph_setsNodup (data : List SystemEntry) :
    SetsNodup (buildGraph data).neighborMap := by
  apply foldl_processEntry_setsNodup
  intro a
  simp [GraphState.empty, neighborsOf, mapGet]

/-! ## Link resolution succeeds on the output of `buildGraph` -/

theorem foldl_nodeById (nodes : List Node) (m : List (String × Node)) (h : NodesKeyed m) :
    NodesKeyed (nodes.foldl (fun m d => mapSet m d.id d) m) ∧
      ∀ id, (mapHas m id = true ∨ ∃ n ∈ nodes, n.id = id) →
        mapHas (nodes.foldl (fun m d => mapSet m d.id d) m) id = true := by
  induction nodes generalizing m with
  | nil =>
    refine ⟨h, ?_⟩
    rintro id (hh | ⟨n, hn, _⟩)
    · exact hh
    · simp at hn
  | cons d ds ih =>
    have hk : NodesKeyed (mapSet m d.id d) := by
      intro id n hget
      rw [mapGet_mapSet] at hget
      by_cases hid : id = d.id
      · simp only [hid, if_true, Option.some.injEq] at hget
        rw [← hget, hid]
      · simp only [hid, if_false] at hget
        exact h id n hget
    obtain ⟨h1, h2⟩ := ih (mapSet m d.id d) hk
    refine ⟨h1, ?_⟩
    intro id hid
    apply h2
    rw [mapHas_mapSet]
    rcases hid with hh | ⟨n, hn, hid'⟩
    · left; simp [hh]
    · rcases List.mem_cons.1 hn with rfl | hn'
      · left; simp [hid']
      · exact Or.inr ⟨n, hn', hid'⟩

theorem nodeById_keyed (nodes : List Node) : NodesKeyed (nodeById nodes) :=
  (foldl_nodeById nodes [] (by intro id n h; simp [mapGet] at h)).1

theorem nodeById_has (nodes : List Node) (n : Node) (hn : n ∈ nodes) :
    mapHas (nodeById nodes) n.id = true :=
  (foldl_nodeById nodes [] (by intro id n h; simp [mapGet] at h)).2 n.id
    (Or.inr ⟨n, hn, rfl⟩)

theorem resolveLinks_some (byId : List (String × Node)) (hk : NodesKeyed byId)
    (links : List Link)
    (hall : ∀ l ∈ links, mapHas byId l.source = true ∧ mapHas byId l.target = true) :
    ∃ rs, resolveLinks byId links = some rs ∧ List.Forall₂ Resolves links rs := by
  induction links with
  | nil => exact ⟨[], rfl, List.Forall₂.nil⟩
  | cons l ls ih =>
    obtain ⟨rs, hrs, hf⟩ := ih (fun l' hl' => hall l' (List.mem_cons_of_mem _ hl'))
    obtain ⟨hs, ht⟩ := hall l (List.mem_cons_self _ _)
    unfold mapHas at hs ht
    cases hgs : mapGet byId l.source with
    | none => simp [hgs] at hs
    | some sn =>
      cases hgt : mapGet byId l.target with
      | none => simp [hgt] at ht
      | some tn =>
        refine ⟨{ source := sn, target := tn, category := l.category } :: rs, ?_, ?_⟩
        · simp [resolveLinks, resolveLink, hgs, hgt, hrs]
        · exact List.Forall₂.cons ⟨hk _ _ hgs, hk _ _ hgt, rfl⟩ hf

theorem initApp_some (data : List SystemEntry) :
    ∃ links, List.Forall₂ Resolves (buildGraph data).links links ∧
      initApp data = some
        { nodes := (buildGraph data).nodes, links := links,
          neighborMap := (buildGraph data).neighborMap,
          systemNodes := (buildGraph data).systemNodes } := by
  have hall : ∀ l ∈ (buildGraph data).links,
      mapHas (nodeById (buildGraph data).nodes) l.source = true ∧
        mapHas (nodeById (buildGraph data).nodes) l.target = true := by
    intro l hl
    rw [buildGraph_links] at hl
    obtain ⟨t, ht, rfl⟩ := List.mem_map.1 hl
    obtain ⟨r, hr, c, hc, v, hv, rfl⟩ := (mem_triples data t).1 ht
    constructor
    · obtain ⟨n, hn, hid⟩ := buildGraph_has_system_node data r hr
      have := nodeById_has _ n hn
      rw [hid] at this
      exact this
    · exact nodeById_has _ _ (buildGraph_has_tag_node data _ ht)
  obtain ⟨rs, hrs, hf⟩ := resolveLinks_some _ (nodeById_keyed _) _ hall
  refine ⟨rs, hf, ?_⟩
  unfold initApp forceLinkInit
  simp [hrs]

/-! ## What `highlightNode` writes -/

theorem linkTouches_iff (d : Node) (nb : List String) (r : ResolvedLink) :
    linkTouches d nb r = true ↔
      (r.source.id ≠ "" ∧ r.target.id ≠ "") ∧
        ((r.source.id = d.id ∧ r.target.id ∈ nb) ∨ (r.target.id = d.id ∧ r.source.id ∈ nb)) := by
  unfold linkTouches idOrSelf
  by_cases hs : r.source.id = "" <;> by_cases ht : r.target.id = "" <;>
    simp [hs, ht, strictEq, neighborsHas, setHas]

theorem pageAfter_highlightNode_some (app : App) (d : Node) (view : View) :
    (pageAfter (highlightNode app (some d) view)).nodes =
        app.nodes.map (fun n =>
          { dimmed := !setHas (setAdd (neighborsOf app.neighborMap d.id) d.id) n.id,
            highlight := decide (n.id = d.id) }) ∧
    (pageAfter (highlightNode app (some d) view)).labels =
        app.nodes.map (fun n =>
          !setHas (setAdd (neighborsOf app.neighborMap d.id) d.id) n.id) ∧
    (pageAfter (highlightNode app (some d) view)).links =
        app.links.map (fun link =>
          { dimmed := !linkTouches d (neighborsOf app.neighborMap d.id) link,
            highlight := linkTouches d (neighborsOf app.neighborMap d.id) link }) := by
  unfold neighborsOf
  simp only [highlightNode]
  split <;> exact ⟨rfl, rfl, rfl⟩

theorem highlightNode_none (app : App) (view : View) :
    highlightNode app none view = Except.ok (neutralView app) := rfl

/-! ## Claims on `highlightNode` and the click handlers -/

theorem forall₂_mem_left {α β : Type} {R : α → β → Prop} {l₁ : List α} {l₂ : List β}
    (h : List.Forall₂ R l₁ l₂) : List.Forall₂ (fun a b => a ∈ l₁ ∧ R a b) l₁ l₂ := by
  induction h with
  | nil => exact List.Forall₂.nil
  | cons hab _ ih =>
    exact List.Forall₂.cons ⟨List.mem_cons_self _ _, hab⟩
      (ih.imp (fun a b hab' => ⟨List.mem_cons_of_mem _ hab'.1, hab'.2⟩))

theorem link_target_ne_empty (data : List SystemEntry) (l : Link)
    (hl : l ∈ (buildGraph data).links) : l.target ≠ "" := by
  rw [buildGraph_links] at hl
  obtain ⟨t, _, rfl⟩ := List.mem_map.1 hl
  exact tagIdOf_ne_empty _ _

theorem link_source_is_system (data : List SystemEntry) (l : Link)
    (hl : l ∈ (buildGraph data).links) : ∃ r ∈ data, r.system = l.source := by
  rw [buildGraph_links] at hl
  obtain ⟨t, ht, rfl⟩ := List.mem_map.1 hl
  obtain ⟨r, hr, c, _, v, _, rfl⟩ := (mem_triples data t).1 ht
  exact ⟨r, hr, rfl⟩

/-- C6, at the failing input: for the single record `{system: "",
core_resolution: ["x"]}` the only link has the selected id `""` as its source,
and selecting the system node leaves that link dimmed and not highlighted. -/
theorem highlightNode_empty_id_link_dimmed :
    ∃ app, initApp [unnamed] = some app ∧
      (buildGraph [unnamed]).links =
        [{ source := "", target := "core_resolution:x", category := "core_resolution" }] ∧
      (pageAfter (highlightNode app
          (some { id := "", label := "", category := none, type := NodeType.system })
          (initView app))).links = [{ dimmed := true, highlight := false }] :=
  ⟨_, rfl, by decide, by decide⟩

/-- Apart from links of a system whose name is the empty string, the link
classes are as C6 says: each link is highlighted or dimmed and not both, and
the highlighted links are those with the selected id as an endpoint. -/
theorem highlightNode_links_of_named (data : List SystemEntry)
    (hnamed : ∀ r ∈ data, r.system ≠ "") (x : Node) (view : View) :
    ∃ app, initApp data = some app ∧
      List.Forall₂
        (fun l c => (c.highlight = true ↔ (l.source = x.id ∨ l.target = x.id)) ∧
          c.dimmed = !c.highlight)
        (buildGraph data).links (pageAfter (highlightNode app (some x) view)).links := by
  obtain ⟨rs, hf, happ⟩ := initApp_some data
  refine ⟨_, happ, ?_⟩
  rw [(pageAfter_highlightNode_some _ x view).2.2, List.forall₂_map_right_iff]
  refine (forall₂_mem_left hf).imp ?_
  rintro l r ⟨hl, hs, ht, _⟩
  refine ⟨?_, rfl⟩
  simp only [linkTouches_iff, hs, ht]
  obtain ⟨r0, hr0, hsys⟩ := link_source_is_system data l hl
  have hsrc : l.source ≠ "" := hsys ▸ hnamed r0 hr0
  have htgt := link_target_ne_empty data l hl
  constructor
  · rintro ⟨_, (h | h)⟩
    · exact Or.inl h.1
    · exact Or.inr h.1
  · rintro (h | h)
    · exact ⟨⟨hsrc, htgt⟩, Or.inl ⟨h, (mem_neighborsOf_iff_link data _ _).2
        ⟨l, hl, Or.inl ⟨h, rfl⟩⟩⟩⟩
    · exact ⟨⟨hsrc, htgt⟩, Or.inr ⟨h, (mem_neighborsOf_iff_link data _ _).2
        ⟨l, hl, Or.inr ⟨rfl, h⟩⟩⟩⟩

/-- C7: after `highlightNode(x)` a node is not dimmed exactly when its id is
`x.id` or some edge of `links` joins it to `x.id`, every other node is dimmed,
a node is highlighted exactly when its id is `x.id`, and each label is dimmed
exactly when its node is. -/
theorem highlightNode_node_classes (data : List SystemEntry) (x : Node) (view : View) :
    ∃ app, initApp data = some app ∧ app.nodes = (buildGraph data).nodes ∧
      List.Forall₂
        (fun n c =>
          (c.dimmed = false ↔
            (n.id = x.id ∨ ∃ l ∈ (buildGraph data).links,
              (l.source = x.id ∧ l.target = n.id) ∨ (l.source = n.id ∧ l.target = x.id))) ∧
          (c.dimmed = true ↔
            ¬ (n.id = x.id ∨ ∃ l ∈ (buildGraph data).links,
              (l.source = x.id ∧ l.target = n.id) ∨ (l.source = n.id ∧ l.target = x.id))) ∧
          (c.highlight = true ↔ n.id = x.id))
        (buildGraph data).nodes (pageAfter (highlightNode app (some x) view)).nodes ∧
      List.Forall₂ (fun c labelDimmed => labelDimmed = c.dimmed)
        (pageAfter (highlightNode app (some x) view)).nodes
        (pageAfter (highlightNode app (some x) view)).labels := by
  obtain ⟨rs, _, happ⟩ := initApp_some data
  refine ⟨_, happ, rfl, ?_, ?_⟩
  · rw [(pageAfter_highlightNode_some _ x view).1, List.forall₂_map_right_iff,
      List.forall₂_same]
    intro n _
    have key : (!setHas (setAdd (neighborsOf (buildGraph data).neighborMap x.id) x.id) n.id)
          = false ↔
        (n.id = x.id ∨ ∃ l ∈ (buildGraph data).links,
          (l.source = x.id ∧ l.target = n.id) ∨ (l.source = n.id ∧ l.target = x.id)) := by
      simp only [setHas, Bool.not_eq_false', decide_eq_true_eq, mem_setAdd,
        mem_neighborsOf_iff_link]
      exact or_comm
    refine ⟨key, ?_, by simp⟩
    rw [← key]
    simp
  · rw [(pageAfter_highlightNode_some _ x view).1, (pageAfter_highlightNode_some _ x view).2.1,
      List.forall₂_map_left_iff, List.forall₂_map_right_iff, List.forall₂_same]
    intro n _
    rfl

/-! ### Details of a selected tag node -/

theorem relatedNames_of_keyed (m : List (String × SystemEntry)) (ids : List String)
    (h : ∀ id ∈ ids, ∃ e, mapGet m id = some e ∧ e.system = id) :
    relatedNames m ids = some ids := by
  induction ids with
  | nil => rfl
  | cons id rest ih =>
    obtain ⟨e, he, hid⟩ := h id (List.mem_cons_self _ _)
    have hrest := ih (fun id' hid' => h id' (List.mem_cons_of_mem _ hid'))
    simp [relatedNames, he, hrest, hid]

theorem highlightNode_tag_ok (app : App) (t : Node) (view : View)
    (htag : t.type = NodeType.tag)
    (hnames : relatedNames app.systemNodes (neighborsOf app.neighborMap t.id) =
      some (neighborsOf app.neighborMap t.id)) :
    ∃ page, highlightNode app (some t) view = Except.ok page ∧
      page.details = Details.tag t.label (nodeCategoryTitle t.category)
        (sortAscending (neighborsOf app.neighborMap t.id)).length
        (sortAscending (neighborsOf app.neighborMap t.id)) := by
  unfold neighborsOf at hnames ⊢
  simp [highlightNode, renderDetails, htag, hnames]

theorem mem_neighborsOf_tag (data : List SystemEntry) (c v s : String)
    (hc : c ∈ categories)
    (hown : ∀ r ∈ data, r.system = tagIdOf c v →
      ∀ c' ∈ categories, ∀ v' ∈ r.values c', tagIdOf c' v' = tagIdOf c v) :
    s ∈ neighborsOf (buildGraph data).neighborMap (tagIdOf c v) ↔
      ∃ r ∈ data, r.system = s ∧ v ∈ r.values c := by
  rw [buildGraph_neighbors]
  constructor
  · rintro ⟨t, ht, hj⟩
    obtain ⟨r, hr, c', hc', v', hv', rfl⟩ := (mem_triples data t).1 ht
    rcases hj with ⟨h1, h2⟩ | ⟨h1, h2⟩
    · have hsame := hown r hr h1.symm c' hc' v' hv'
      obtain ⟨rfl, rfl⟩ := tagIdOf_inj hc hc' hsame.symm
      exact ⟨r, hr, h1.symm.trans h2.symm, hv'⟩
    · obtain ⟨rfl, rfl⟩ := tagIdOf_inj hc hc' h1
      exact ⟨r, hr, h2.symm, hv'⟩
  · rintro ⟨r, hr, rfl, hv⟩
    exact ⟨(r.system, c, v), (mem_triples data _).2 ⟨r, hr, c, hc, v, hv, rfl⟩,
      Or.inr ⟨rfl, rfl⟩⟩

/-- C8, at the failing input: for the single record `{system:
"core_resolution:x", core_resolution: ["x"], genre_scope: ["g"]}` the tag node
`core_resolution:x` has the tag id `genre_scope:g` among its neighbours, and
selecting it raises a `TypeError` in `renderDetails` (`dataById.get` of that
id is `undefined`) instead of producing a details payload. -/
theorem highlightNode_tag_raises :
    tagNodeOf "core_resolution" "x" ∈ tagNodesIn (buildGraph [clash]).nodes ∧
    neighborsOf (buildGraph [clash]).neighborMap "core_resolution:x" =
      ["core_resolution:x", "genre_scope:g"] ∧
    ∃ app page, initApp [clash] = some app ∧
      highlightNode app (some (tagNodeOf "core_resolution" "x")) (initView app) =
        Except.error page :=
  ⟨by decide, by decide, _, _, rfl, rfl⟩

/-- Away from the id collision the details of a tag node are as C8 says: for
every tag node `t` of `buildGraph(data)` such that a record named like `t`'s
id carries no tag other than `t`, selecting `t` produces a details payload
whose system list is sorted ascending, holds each name once, holds exactly the
names of the systems whose record has `t`'s value in its list for `t`'s
category, and whose count is the length of that list; for the two records of
the worked example, selecting `core_resolution:d6 pool` gives
`["Blades", "Fate"]`. -/
theorem highlightNode_tag_details :
    (∀ (data : List SystemEntry) (t : Node) (view : View),
      t ∈ (buildGraph data).nodes → t.type = NodeType.tag →
      (∀ r ∈ data, r.system = t.id →
        ∀ c' ∈ categories, ∀ v' ∈ r.values c', tagIdOf c' v' = t.id) →
      ∃ app page systems, initApp data = some app ∧
        highlightNode app (some t) view = Except.ok page ∧
        page.details =
          Details.tag t.label (nodeCategoryTitle t.category) systems.length systems ∧
        systems.Sorted ascendingLe ∧ systems.Nodup ∧
        ∀ s, s ∈ systems ↔
          ∃ r ∈ data, r.system = s ∧ ∃ c, t.category = some c ∧ t.label ∈ r.values c) ∧
    (∃ app page, initApp [fate, blades] = some app ∧
      highlightNode app (some (tagNodeOf "core_resolution" "d6 pool")) (initView app) =
        Except.ok page ∧
      page.details = Details.tag "d6 pool" (TitleValue.text "Core Resolution") 2 ["Blades", "Fate"]) := by
  refine ⟨?_, _, _, rfl, rfl, by decide⟩
  intro data t view ht htag hfree
  obtain ⟨rs, _, happ⟩ := initApp_some data
  obtain ⟨t0, ht0, rfl⟩ := (mem_buildGraph_tagNodes data t).1
    ((mem_tagNodesIn _ _).2 ⟨ht, htag⟩)
  obtain ⟨r0, hr0, c, hc, v, hv, rfl⟩ := (mem_triples data t0).1 ht0
  have hmem := fun s => mem_neighborsOf_tag data c v s hc hfree
  have hnames : relatedNames (buildGraph data).systemNodes
      (neighborsOf (buildGraph data).neighborMap (tagIdOf c v)) =
        some (neighborsOf (buildGraph data).neighborMap (tagIdOf c v)) := by
    apply relatedNames_of_keyed
    intro id hid
    obtain ⟨r, hr, rfl, _⟩ := (hmem id).1 hid
    exact buildGraph_systemNodes data r hr
  obtain ⟨page, hpage, hdet⟩ := highlightNode_tag_ok
    { nodes := (buildGraph data).nodes, links := rs,
      neighborMap := (buildGraph data).neighborMap,
      systemNodes := (buildGraph data).systemNodes }
    (tagNodeOf c v) view rfl hnames
  refine ⟨_, page, _, happ, hpage, hdet, sortAscending_sorted _, ?_, ?_⟩
  · exact (sortAscending_perm _).nodup_iff.2 (buildGraph_setsNodup data _)
  · intro s
    rw [(sortAscending_perm _).mem_iff]
    show s ∈ neighborsOf (buildGraph data).neighborMap (tagIdOf c v) ↔ _
    rw [hmem s]
    constructor
    · rintro ⟨r, hr, hs, hv'⟩
      exact ⟨r, hr, hs, c, rfl, hv'⟩
    · rintro ⟨r, hr, hs, c', hc', hv'⟩
      have hcc : c = c' := by
        have : some c = some c' := hc'
        exact Option.some.inj this
      subst hcc
      exact ⟨r, hr, hs, hv'⟩

/-- The details of the tag node `core_resolution:d6 pool` on the two records
of the worked example. -/
theorem highlightNode_tag_details_witness :
    (tagNodeOf "core_resolution" "d6 pool" ∈ (buildGraph [fate, blades]).nodes ∧
      (tagNodeOf "core_resolution" "d6 pool").type = NodeType.tag ∧
      ∀ r ∈ [fate, blades], r.system = (tagNodeOf "core_resolution" "d6 pool").id →
        ∀ c' ∈ categories, ∀ v' ∈ r.values c',
          tagIdOf c' v' = (tagNodeOf "core_resolution" "d6 pool").id) ∧
    ∃ app page systems, initApp [fate, blades] = some app ∧
        highlightNode app (some (tagNodeOf "core_resolution" "d6 pool")) blankView =
          Except.ok page ∧
        page.details =
          Details.tag (tagNodeOf "core_resolution" "d6 pool").label
            (nodeCategoryTitle (tagNodeOf "core_resolution" "d6 pool").category)
            systems.length systems ∧
        systems.Sorted ascendingLe ∧ systems.Nodup ∧
        ∀ s, s ∈ systems ↔
          ∃ r ∈ [fate, blades], r.system = s ∧
            ∃ c, (tagNodeOf "core_resolution" "d6 pool").category = some c ∧
              (tagNodeOf "core_resolution" "d6 pool").label ∈ r.values c :=
  ⟨⟨by decide, rfl, by decide⟩,
    highlightNode_tag_details.1 [fate, blades] (tagNodeOf "core_resolution" "d6 pool")
      blankView (by decide) rfl (by decide)⟩

/-! ### Selecting an id that is not in the graph -/

theorem neighborsOf_absent (data : List SystemEntry) (id : String)
    (habsent : ∀ n ∈ (buildGraph data).nodes, n.id ≠ id) :
    neighborsOf (buildGraph data).neighborMap id = [] := by
  rw [List.eq_nil_iff_forall_not_mem]
  intro b hb
  obtain ⟨t, ht, hj⟩ := (buildGraph_neighbors data id b).1 hb
  rcases hj with ⟨h1, _⟩ | ⟨h1, _⟩
  · obtain ⟨r, hr, c, _, v, _, rfl⟩ := (mem_triples data t).1 ht
    obtain ⟨n, hn, hid⟩ := buildGraph_has_system_node data r hr
    exact habsent n hn (hid.trans h1.symm)
  · exact habsent _ (buildGraph_has_tag_node data t ht) h1.symm

/-- C9, as stated, fails for a datum of type system: on the graph of the
worked example, `highlightNode` of a system-type datum with the absent id
`Unknown` raises a `TypeError` in `renderDetails` (`dataById.get` gives
`undefined`). -/
theorem highlightNode_absent_system_raises :
    (∀ n ∈ (buildGraph [fate, blades]).nodes, n.id ≠ strangerSystem.id) ∧
    ∃ app page, initApp [fate, blades] = some app ∧
      highlightNode app (some strangerSystem) (initView app) = Except.error page :=
  ⟨by decide, _, _, rfl, rfl⟩

/-- C9, amended: for every graph produced by `buildGraph` and every node datum
of type tag whose id no node of the graph carries, `highlightNode` completes
without raising, reads the empty neighbour set, dims every node, label and
link, highlights none, and yields a details payload with zero related
systems. -/
theorem highlightNode_absent_tag (data : List SystemEntry) (d : Node) (view : View)
    (htag : d.type = NodeType.tag)
    (habsent : ∀ n ∈ (buildGraph data).nodes, n.id ≠ d.id) :
    ∃ app, initApp data = some app ∧
      neighborsOf app.neighborMap d.id = [] ∧
      highlightNode app (some d) view = Except.ok
        { nodes := app.nodes.map (fun _ => { dimmed := true, highlight := false }),
          labels := app.nodes.map (fun _ => true),
          links := app.links.map (fun _ => { dimmed := true, highlight := false }),
          details := Details.tag d.label (nodeCategoryTitle d.category) 0 [] } := by
  obtain ⟨rs, _, happ⟩ := initApp_some data
  have hnb := neighborsOf_absent data d.id habsent
  refine ⟨_, happ, hnb, ?_⟩
  unfold neighborsOf at hnb
  have hnodes : ∀ n ∈ (buildGraph data).nodes,
      (({ dimmed := !setHas (setAdd [] d.id) n.id, highlight := decide (n.id = d.id) } :
        Classes) = { dimmed := true, highlight := false }) ∧
      (!setHas (setAdd [] d.id) n.id) = true := by
    intro n hn
    have := habsent n hn
    simp [setHas, setAdd, this]
  have hlinks : ∀ link ∈ rs, linkTouches d [] link = false := by
    intro link _
    simp [linkTouches, neighborsHas, setHas]
    cases idOrSelf link.target <;> cases idOrSelf link.source <;> simp
  simp only [highlightNode, hnb, renderDetails, htag, relatedNames, sortAscending,
    List.insertionSort, List.length_nil]
  have h1 : (buildGraph data).nodes.map (fun n =>
        ({ dimmed := !setHas (setAdd [] d.id) n.id, highlight := decide (n.id = d.id) } :
          Classes)) =
      (buildGraph data).nodes.map (fun _ => { dimmed := true, highlight := false }) :=
    List.map_congr_left (fun n hn => (hnodes n hn).1)
  have h2 : (buildGraph data).nodes.map (fun n => !setHas (setAdd [] d.id) n.id) =
      (buildGraph data).nodes.map (fun _ => true) :=
    List.map_congr_left (fun n hn => (hnodes n hn).2)
  have h3 : rs.map (fun link =>
        ({ dimmed := !linkTouches d [] link, highlight := linkTouches d [] link } : Classes)) =
      rs.map (fun _ => { dimmed := true, highlight := false }) :=
    List.map_congr_left (fun l hl => by simp [hlinks l hl])
  simp [h1, h2, h3]

/-- C9, amended, on the worked example and a tag-type datum with the absent id
`Unknown`. -/
theorem highlightNode_absent_tag_witness :
    (strangerTag.type = NodeType.tag ∧
      ∀ n ∈ (buildGraph [fate, blades]).nodes, n.id ≠ strangerTag.id) ∧
    ∃ app, initApp [fate, blades] = some app ∧
      neighborsOf app.neighborMap strangerTag.id = [] ∧
      highlightNode app (some strangerTag) blankView = Except.ok
        { nodes := app.nodes.map (fun _ => { dimmed := true, highlight := false }),
          labels := app.nodes.map (fun _ => true),
          links := app.links.map (fun _ => { dimmed := true, highlight := false }),
          details :=
            Details.tag strangerTag.label (nodeCategoryTitle strangerTag.category) 0 [] } :=
  ⟨⟨rfl, by decide⟩,
    highlightNode_absent_tag [fate, blades] strangerTag blankView rfl (by decide)⟩

/-! ### Click to deselect -/

/-- C10: clicking `x` while the active node has the id of `x` resets
`activeNode` to null and gives exactly the page of `select(none)` (the
background click): no node, label or link dimmed or highlighted, placeholder
details; and from a state in which `x` is not active, clicking `x` twice ends
in that same state. -/
theorem clickNode_again_deselects (app : App) :
    (∀ (st : UIState) (x : Node),
        st.activeNode.any (fun a => decide (a.id = x.id)) = true →
        clickNode app st x = { activeNode := none, view := neutralView app } ∧
        clickNode app st x = clickBackground app st) ∧
    (∀ (st : UIState) (x : Node),
        st.activeNode.any (fun a => decide (a.id = x.id)) = false →
        clickNode app (clickNode app st x) x =
          { activeNode := none, view := neutralView app } ∧
        clickNode app (clickNode app st x) x = clickBackground app st) ∧
    (∀ st : UIState, clickBackground app st =
        { activeNode := none, view := neutralView app }) ∧
    (∀ c ∈ (neutralView app).nodes, c.dimmed = false ∧ c.highlight = false) ∧
    (∀ b ∈ (neutralView app).labels, b = false) ∧
    (∀ c ∈ (neutralView app).links, c.dimmed = false ∧ c.highlight = false) ∧
    (neutralView app).details = Details.placeholder := by
  have hbg : ∀ st : UIState, clickBackground app st =
      { activeNode := none, view := neutralView app } := by
    intro st
    simp [clickBackground, highlightNode_none, pageAfter]
  have hon : ∀ (st : UIState) (x : Node),
      st.activeNode.any (fun a => decide (a.id = x.id)) = true →
      clickNode app st x = { activeNode := none, view := neutralView app } := by
    intro st x h
    simp [clickNode, h, highlightNode_none, pageAfter]
  refine ⟨?_, ?_, hbg, ?_, ?_, ?_, rfl⟩
  · intro st x h
    exact ⟨hon st x h, by rw [hon st x h, hbg]⟩
  · intro st x h
    have h1 : (clickNode app st x).activeNode = some x := by
      simp [clickNode, h]
    have h2 : (clickNode app st x).activeNode.any (fun a => decide (a.id = x.id)) = true := by
      rw [h1]
      simp
    exact ⟨hon _ x h2, by rw [hon _ x h2, hbg]⟩
  · intro c hc
    simp only [neutralView, List.mem_map] at hc
    obtain ⟨_, _, rfl⟩ := hc
    exact ⟨rfl, rfl⟩
  · intro b hb
    simp only [neutralView, List.mem_map] at hb
    obtain ⟨_, _, rfl⟩ := hb
    rfl
  · intro c hc
    simp only [neutralView, List.mem_map] at hc
    obtain ⟨_, _, rfl⟩ := hc
    exact ⟨rfl, rfl⟩

/-- C10 on the worked example: from the page right after `init`, clicking the
node `Fate` twice ends with no active node and the page of `select(none)`. -/
theorem clickNode_again_deselects_witness :
    ∃ app, initApp [fate, blades] = some app ∧
      clickNode app (clickNode app { activeNode := none, view := initView app } fateNode)
          fateNode =
        { activeNode := none, view := neutralView app } :=
  ⟨_, rfl,
    ((clickNode_again_deselects _).2.1 { activeNode := none, view := initView _ } fateNode
      rfl).1⟩

end TTRPGFinder
